import Mathlib

/-!
Shallow embedding of the commit ingestion and semantic search pipeline of
the github-research-rs repository (src/api/process.rs, src/api/search.rs,
src/ml.rs, src/github.rs, src/database.rs), together with theorems settling
the specification claims.

Rust f32 values are modelled by the type EF below: NaN, the two infinities,
and finite values represented exactly as rationals.  Finite arithmetic is
exact (no rounding or overflow-to-infinity); the non-finite propagation rules
follow IEEE-754, which is what the claims about NaN behaviour depend on.
A separate real-number model is used for the mathematical properties of
cosine similarity, where "within floating tolerance" is read as exact
equality in idealized real arithmetic.
-/

/-- Model of an f32 value: NaN, plus and minus infinity, or a finite value
represented exactly by a rational.  Signed zeros are identified and finite
arithmetic does not overflow; no claim depends on either. -/
inductive EF : Type where
  | nan : EF
  | inf : EF
  | ninf : EF
  | fin (q : ℚ) : EF
deriving DecidableEq, Repr

namespace EF

/-- IEEE-754 addition on the model (f32 +). -/
def add : EF → EF → EF
  | nan, _ => nan
  | _, nan => nan
  | inf, ninf => nan
  | ninf, inf => nan
  | inf, _ => inf
  | _, inf => inf
  | ninf, _ => ninf
  | _, ninf => ninf
  | fin a, fin b => fin (a + b)

/-- IEEE-754 multiplication on the model (f32 *). -/
def mul : EF → EF → EF
  | nan, _ => nan
  | _, nan => nan
  | inf, inf => inf
  | inf, ninf => ninf
  | ninf, inf => ninf
  | ninf, ninf => inf
  | inf, fin q => if q = 0 then nan else if 0 < q then inf else ninf
  | fin q, inf => if q = 0 then nan else if 0 < q then inf else ninf
  | ninf, fin q => if q = 0 then nan else if 0 < q then ninf else inf
  | fin q, ninf => if q = 0 then nan else if 0 < q then ninf else inf
  | fin a, fin b => fin (a * b)

/-- IEEE-754 division on the model (f32 /); the model's single zero is
treated as +0 when it appears as a divisor. -/
def div : EF → EF → EF
  | nan, _ => nan
  | _, nan => nan
  | inf, inf => nan
  | inf, ninf => nan
  | ninf, inf => nan
  | ninf, ninf => nan
  | inf, fin q => if q < 0 then ninf else inf
  | ninf, fin q => if q < 0 then inf else ninf
  | fin _, inf => fin 0
  | fin _, ninf => fin 0
  | fin a, fin b =>
      if b = 0 then (if a = 0 then nan else if 0 < a then inf else ninf)
      else fin (a / b)

/-- Exact rational square root when the argument is the square of a
rational; otherwise a deterministic rational approximation (f32 sqrt also
returns a rounded value there).  No claim depends on the inexact case. -/
def ratSqrt (q : ℚ) : ℚ :=
  (Nat.sqrt (q.num.toNat * q.den) : ℚ) / (q.den : ℚ)

/-- IEEE-754 square root on the model (f32 sqrt): NaN for negative
arguments, infinity for infinity. -/
def sqrt : EF → EF
  | nan => nan
  | inf => inf
  | ninf => nan
  | fin q => if q < 0 then nan else fin (ratSqrt q)

/-- IEEE-754 equality test (f32 ==): NaN compares unequal to everything. -/
def beq : EF → EF → Bool
  | nan, _ => false
  | _, nan => false
  | inf, inf => true
  | ninf, ninf => true
  | fin a, fin b => a == b
  | _, _ => false

/-- Model of f32 partial comparison (PartialOrd on f32): returns none
exactly when one of the operands is NaN. -/
def pcmp : EF → EF → Option Ordering
  | nan, _ => none
  | _, nan => none
  | inf, inf => some .eq
  | inf, _ => some .gt
  | ninf, ninf => some .eq
  | ninf, _ => some .lt
  | fin _, inf => some .lt
  | fin _, ninf => some .gt
  | fin a, fin b => some (compare a b)

/-- The order on non-NaN model values, via the partial comparison. -/
def le (a b : EF) : Prop := pcmp a b = some .lt ∨ pcmp a b = some .eq

instance : DecidableEq (Option Ordering) := inferInstance

instance (a b : EF) : Decidable (le a b) := by
  unfold le; infer_instance

end EF

/-- The four-field structured summary produced per commit
(database.rs, struct CommitSummary). -/
structure CommitSummary where
  languages : List String
  frameworks_libraries : List String
  patterns : List String
  specialized_knowledge : List String
deriving DecidableEq, Repr

/-- The persisted unit (database.rs, struct CommitDocument); the f32
embedding components are modelled by EF. -/
structure CommitDocument where
  sha : String
  message : String
  date : String
  org : String
  repo : String
  patch : String
  summary : CommitSummary
  embedding : List EF
deriving DecidableEq, Repr

/-- Cached README entry (database.rs, struct ReadmeDocument); the
chrono timestamp is modelled by a Nat. -/
structure ReadmeDocument where
  owner : String
  repo : String
  content : String
  cached_at : Nat
deriving DecidableEq, Repr

/-- Discovery result (github.rs, struct Repository). -/
structure Repository where
  name : String
  owner : String
  default_branch : String
  commit_count : Int
deriving DecidableEq, Repr

/-- Commit author (github.rs, struct CommitAuthor). -/
structure CommitAuthor where
  email : Option String
  name : Option String
deriving DecidableEq, Repr

/-- One commit as returned by the discovery collaborator
(github.rs, struct CommitInfo). -/
structure CommitInfo where
  oid : String
  message_headline : String
  committed_date : String
  author : CommitAuthor
deriving DecidableEq, Repr

/-- Outcome of a fallible call: Ok value or propagated error
(Rust Result, with eyre errors collapsed to a single error state). -/
inductive FetchResult (α : Type) : Type where
  | ok (a : α) : FetchResult α
  | error : FetchResult α
deriving DecidableEq, Repr

/-- Outcome of an ML-layer call, distinguishing a returned error (Rust
Err) from a panic (index out of bounds, a failed expect): a panic aborts
the whole request instead of being handed to the caller as an error. -/
inductive MlResult (α : Type) : Type where
  | ok (a : α) : MlResult α
  | error : MlResult α
  | panicked : MlResult α
deriving DecidableEq, Repr

/-- One embedding object of the OpenAI response (ml.rs, struct
OpenAIEmbedding). -/
structure OpenAIEmbedding where
  embedding : List EF
deriving DecidableEq, Repr

/-- The OpenAI embeddings response (ml.rs, struct
OpenAIEmbeddingResponse). -/
structure OpenAIEmbeddingResponse where
  data : List OpenAIEmbedding
deriving DecidableEq, Repr

/-- Model of MachineLearning::get_embedding (ml.rs lines 69-97) applied to
an already-received response body: the input is the result of parsing the
body as an OpenAIEmbeddingResponse (none = serde parse failure, which the
source propagates as an error).  On a parsed response the source returns
response.data[0].embedding, and indexing with [0] panics when data is
empty rather than returning an error. -/
def get_embedding (parsed : Option OpenAIEmbeddingResponse) : MlResult (List EF) :=
  match parsed with
  | none => .error
  | some response =>
    match response.data with
    | [] => .panicked
    | e :: _ => .ok e.embedding

/-- Maximum size of a patch in bytes that the pipeline will process
(process.rs line 19, MAX_PATCH_SIZE_BYTES). -/
def MAX_PATCH_SIZE_BYTES : Nat := 50000

/-- Deterministic stand-in for serde_json::to_string on a CommitSummary
(process.rs line 208): builds the JSON object text field by field.  The
exact text is irrelevant to every claim; only that it is a function of the
summary matters. -/
def summaryJson (s : CommitSummary) : String :=
  let arr : List String → String := fun l =>
    "[" ++ String.intercalate "," (l.map (fun x => "\"" ++ x ++ "\"")) ++ "]"
  "\x7b\"languages\":" ++ arr s.languages
    ++ ",\"frameworks_libraries\":" ++ arr s.frameworks_libraries
    ++ ",\"patterns\":" ++ arr s.patterns
    ++ ",\"specialized_knowledge\":" ++ arr s.specialized_knowledge ++ "\x7d"

/-- The responses of the outbound collaborators during one ingestion run,
as seen by process_user (process.rs).  Each field models one collaborator
call; the transport Result layer of the calls that no claim exercises is
modelled as always succeeding, so those collaborators appear as total
functions.  user_id keeps its Option layer: get_user_id (github.rs lines
52-68) returns Ok(None) when the GraphQL response has no user id. -/
structure World where
  /-- The GitHub username being processed (query.user). -/
  user : String
  /-- get_user_contributed_repos result (github.rs lines 146-187). -/
  repos : List Repository
  /-- get_user_id result: the user's stable GraphQL id, if any. -/
  user_id : Option String
  /-- get_commits: owner, name, branch, author id to commit list
  (github.rs lines 70-98). -/
  commits : String → String → String → String → List CommitInfo
  /-- get_commit_patch: owner, name, oid to raw diff text
  (github.rs lines 100-143). -/
  patch : String → String → String → String
  /-- get_readme: owner, name to decoded README content, if available
  (github.rs lines 253-314); see get_readme below for the full model. -/
  readme : String → String → Option String
  /-- summarize_readme: README text to prose summary (ml.rs lines 193-266). -/
  readme_summary : String → String
  /-- summarize_text: enrichment input to structured summary
  (ml.rs lines 100-190). -/
  summarize : String → CommitSummary
  /-- get_embedding on the success path: serialized summary to vector
  (ml.rs lines 69-97). -/
  embed : String → List EF

/-- Model of MongoDb::commit_exists (database.rs lines 90-98): the store
holds a document with this sha. -/
def commitExists (store : List CommitDocument) (sha : String) : Bool :=
  store.any (fun d => d.sha == sha)

/-- The body of the per-commit loop of process_user (process.rs lines
116-242), acting on the commit store: dedup gate, patch fetch, size gate,
emptiness gate, README enrichment, summary, embedding, insertion.  A
skipped commit (continue in the source) leaves the store unchanged;
MongoDb::insert_commit appends the document. -/
def processCommitStep (w : World) (repo : Repository)
    (store : List CommitDocument) (commit : CommitInfo) : List CommitDocument :=
  if commitExists store commit.oid then store
  else
    let patch := w.patch repo.owner repo.name commit.oid
    if patch.utf8ByteSize > MAX_PATCH_SIZE_BYTES then store
    else if patch.isEmpty then store
    else
      let readme_content := w.readme repo.owner repo.name
      let readme_summary := readme_content.map w.readme_summary
      let text_to_summarize :=
        match readme_summary with
        | some readme =>
            "Repository README Summary:\n" ++ readme ++ "\n\nCommit Changes:\n" ++ patch
        | none => patch
      let summary := w.summarize text_to_summarize
      let summary_json := summaryJson summary
      let embedding := w.embed summary_json
      store ++ [{ sha := commit.oid
                  message := commit.message_headline
                  date := commit.committed_date
                  org := repo.owner
                  repo := repo.name
                  patch := patch
                  summary := summary
                  embedding := embedding }]

/-- The aggregate response of process_user (api/types.rs,
ProcessUserResponse); the i32 counters are modelled by Int. -/
structure ProcessUserResponse where
  total_expected : Int
  total_processed : Int
  repositories : List String
deriving DecidableEq, Repr

/-- The per-repository loop of process_user (process.rs lines 75-243),
threading the running total, the repository name list and the commit
store.  Faithful to the source: the repository name is recorded before
anything else; the author id is resolved inside the loop, once per
repository, and a missing id fails the run there; total_processed is
incremented by the length of the fetched commit list before the
per-commit gates run. -/
def processRepos (w : World) :
    List Repository → Int → List String → List CommitDocument →
    Except String (Int × List String × List CommitDocument)
  | [], total_processed, repositories, store =>
      .ok (total_processed, repositories, store)
  | repo :: rest, total_processed, repositories, store =>
      let repositories := repositories ++ [repo.owner ++ "/" ++ repo.name]
      match w.user_id with
      | none => .error ("No GitHub ID found for user " ++ w.user)
      | some author_id =>
        let commits := w.commits repo.owner repo.name repo.default_branch author_id
        if commits.isEmpty then
          processRepos w rest total_processed repositories store
        else
          let total_processed := total_processed + (commits.length : Int)
          let store := commits.foldl (fun s c => processCommitStep w repo s c) store
          processRepos w rest total_processed repositories store

/-- Model of process_user (process.rs lines 54-254): runs the repository
loop over the discovery result and returns the aggregate response together
with the final commit store; any failure aborts the whole run. -/
def process_user (w : World) (store : List CommitDocument) :
    Except String (ProcessUserResponse × List CommitDocument) :=
  let repos := w.repos
  let total_expected : Int := (repos.map (fun r => r.commit_count)).sum
  match processRepos w repos 0 [] store with
  | .error e => .error e
  | .ok (total_processed, repositories, store) =>
      .ok ({ total_expected := total_expected
             total_processed := total_processed
             repositories := repositories }, store)

/-- A one-repository, one-commit world: user alice contributed one commit
(oid a1, a small non-empty patch) to org/repo.  Used to evaluate
process_user on a run where the commit is already stored. -/
def w1 : World :=
  { user := "alice"
    repos := [{ name := "repo", owner := "org", default_branch := "main", commit_count := 1 }]
    user_id := some "id1"
    commits := fun _ _ _ _ =>
      [{ oid := "a1", message_headline := "msg", committed_date := "2024-01-01",
         author := { email := none, name := none } }]
    patch := fun _ _ _ => "diff"
    readme := fun _ _ => none
    readme_summary := fun s => s
    summarize := fun _ => { languages := [], frameworks_libraries := [],
                            patterns := [], specialized_knowledge := [] }
    embed := fun _ => [EF.fin 1] }

/-- The store produced by the first run of process_user on w1 from an
empty store: exactly the one enriched document. -/
def st1 : List CommitDocument :=
  [{ sha := "a1", message := "msg", date := "2024-01-01", org := "org",
     repo := "repo", patch := "diff",
     summary := { languages := [], frameworks_libraries := [],
                  patterns := [], specialized_knowledge := [] },
     embedding := [EF.fin 1] }]

/-- The repository of w1 as a standalone value. -/
def repo1 : Repository :=
  { name := "repo", owner := "org", default_branch := "main", commit_count := 1 }

/-- The commit of w1 as a standalone value. -/
def commit1 : CommitInfo :=
  { oid := "a1", message_headline := "msg", committed_date := "2024-01-01",
    author := { email := none, name := none } }

/-- Model of MachineLearning::cosine_similarity (ml.rs lines 268-278) over
the f32 model: dot product and norms as left folds from 0.0 (Iterator::sum),
the zero-norm guard with the f32 == test, and the final division. -/
def cosine_similarity (vec1 vec2 : List EF) : EF :=
  let dot_product := (List.zipWith EF.mul vec1 vec2).foldl EF.add (.fin 0)
  let norm1 := EF.sqrt ((vec1.map (fun x => EF.mul x x)).foldl EF.add (.fin 0))
  let norm2 := EF.sqrt ((vec2.map (fun x => EF.mul x x)).foldl EF.add (.fin 0))
  if EF.beq norm1 (.fin 0) || EF.beq norm2 (.fin 0) then .fin 0
  else EF.div dot_product (EF.mul norm1 norm2)

/-- One search hit (api/types.rs, struct SearchResult): an f32 similarity
score wrapping the stored commit. -/
structure SearchResult where
  similarity : EF
  commit : CommitDocument
deriving DecidableEq, Repr

/-- The comparator closure passed to sort_by in search (search.rs lines
42-46) before the expect: b.similarity.partial_cmp(&a.similarity), the
reversal giving a descending order. -/
def searchCmp (a b : SearchResult) : Option Ordering :=
  EF.pcmp b.similarity a.similarity

/-- Insertion into a sorted list under a fallible comparator: the element
moves past exactly those entries the comparator orders strictly before it,
and the whole insertion is none as soon as one needed comparison is
undefined (the expect on the comparator panics on NaN). -/
def insertP (cmp : SearchResult → SearchResult → Option Ordering)
    (x : SearchResult) : List SearchResult → Option (List SearchResult)
  | [] => some [x]
  | y :: ys =>
    match cmp x y with
    | none => none
    | some .gt =>
      match insertP cmp x ys with
      | none => none
      | some zs => some (y :: zs)
    | some _ => some (x :: y :: ys)

/-- Stable sort under a fallible comparator, modelling slice::sort_by with
the panicking expect of search.rs: Rust's sort_by is stable, and a stable
sort under a total comparator is exactly insertion sort; none models the
panic raised when the comparator meets an incomparable (NaN) pair. -/
def sortByP (cmp : SearchResult → SearchResult → Option Ordering) :
    List SearchResult → Option (List SearchResult)
  | [] => some []
  | x :: xs =>
    match sortByP cmp xs with
    | none => none
    | some sorted => insertP cmp x sorted

/-- Model of the search handler (search.rs lines 25-49).  Inputs: the
result of the commit store scan (get_all_commits, whose failure
unwrap_or_default collapses to an empty corpus) and the result of embedding
the query (get_embedding; the source's let-else turns its Err into an
immediate empty response, while a panic inside it propagates).  Scores
every commit with cosine_similarity in retrieval order, then sorts
descending; an undefined comparison panics the request. -/
def search (dbResult : FetchResult (List CommitDocument))
    (embedResult : MlResult (List EF)) : MlResult (List SearchResult) :=
  let commits := match dbResult with
    | .ok l => l
    | .error => []
  match embedResult with
  | .error => .ok []
  | .panicked => .panicked
  | .ok query_embedding =>
    let results := commits.map (fun commit =>
      { similarity := cosine_similarity query_embedding commit.embedding
        commit := commit })
    match sortByP searchCmp results with
    | none => .panicked
    | some sorted => .ok sorted

/-- A stored commit document with a given sha and embedding; the other
fields are fixed.  Used for concrete search corpora. -/
def mkDoc (sha : String) (embedding : List EF) : CommitDocument :=
  { sha := sha, message := "m", date := "d", org := "o", repo := "r",
    patch := "p",
    summary := { languages := [], frameworks_libraries := [],
                 patterns := [], specialized_knowledge := [] },
    embedding := embedding }

/-- The HTTP response seen by get_commit_patch (github.rs lines 100-143):
the status code and the body text, with none modelling a failed body
read. -/
structure PatchHttpResponse where
  status : Nat
  body : Option String
deriving DecidableEq, Repr

/-- Model of GitHubClient::get_commit_patch (github.rs lines 100-143)
applied to the received response: only a server-error status (5xx,
StatusCode::is_server_error) bails with an error; any other status —
including 4xx client errors — falls through to the body read, whose text
is returned as the patch (an empty body is returned as Ok of the empty
string, only logged). -/
def get_commit_patch (resp : PatchHttpResponse) : FetchResult String :=
  if 500 ≤ resp.status ∧ resp.status ≤ 599 then .error
  else
    match resp.body with
    | none => .error
    | some body => .ok body

/-- The inputs seen by one call of GitHubClient::get_readme (github.rs
lines 253-314): the cached document if any, the HTTP response, and the two
decoding collaborators (the base64 crate and String::from_utf8), given as
functions so a run can be evaluated on any decode outcome. -/
structure ReadmeWorld where
  /-- get_cached_readme result for this (owner, repo). -/
  cached : Option ReadmeDocument
  /-- response.status().is_success(). -/
  resp_success : Bool
  /-- Parsing the response body as JSON: none is a parse failure (which
  the source propagates with the question-mark operator); some c carries
  the optional content field (json.get("content") as a string). -/
  resp_json : Option (Option String)
  /-- BASE64.decode on the newline-stripped content: none is a decode
  failure, some gives the raw bytes. -/
  b64 : String → Option (List Nat)
  /-- String::from_utf8 on the decoded bytes: none is invalid UTF-8
  (which the source wraps and propagates), some the decoded text. -/
  utf8 : List Nat → Option String
  /-- The repository coordinates, used for the cache write. -/
  owner : String
  repo : String

/-- Model of GitHubClient::get_readme (github.rs lines 253-314).  Returns
the call outcome together with the README document upserted into the cache
during the call (none when no write happens).  A cache hit returns the
cached content; a non-success status, a missing content field, and a
base64 decode failure all return Ok(None); but a JSON body parse failure
and an invalid UTF-8 result of the base64 decode propagate errors. -/
def get_readme (w : ReadmeWorld) (now : Nat) :
    FetchResult (Option String × Option ReadmeDocument) :=
  match w.cached with
  | some cached => .ok (some cached.content, none)
  | none =>
    if ¬ w.resp_success then .ok (none, none)
    else
      match w.resp_json with
      | none => .error
      | some contentField =>
        match contentField with
        | none => .ok (none, none)
        | some content =>
          match w.b64 (content.replace "\n" "") with
          | none => .ok (none, none)
          | some bytes =>
            match w.utf8 bytes with
            | none => .error
            | some decoded =>
              let readme_doc : ReadmeDocument :=
                { owner := w.owner, repo := w.repo, content := decoded, cached_at := now }
              .ok (some decoded, some readme_doc)

/-- Dot product of MachineLearning::cosine_similarity (ml.rs line 269) in
idealized real arithmetic: zip, multiply componentwise, sum. -/
noncomputable def dotR (vec1 vec2 : List ℝ) : ℝ :=
  (List.zipWith (fun a b => a * b) vec1 vec2).sum

/-- Euclidean norm of ml.rs lines 270-271 in idealized real arithmetic:
square root of the sum of squares. -/
noncomputable def normR (vec : List ℝ) : ℝ :=
  Real.sqrt ((vec.map (fun x => x * x)).sum)

open Classical in
/-- Model of MachineLearning::cosine_similarity (ml.rs lines 268-278) in
idealized real arithmetic, where f32 rounding disappears and "within
floating tolerance" becomes exact equality: the zero-norm guard returns
0.0, otherwise the result is dot / (norm1 * norm2). -/
noncomputable def cosine_similarityR (vec1 vec2 : List ℝ) : ℝ :=
  if normR vec1 = 0 ∨ normR vec2 = 0 then 0
  else dotR vec1 vec2 / (normR vec1 * normR vec2)

/-- A README world whose fetched content base64-decodes to bytes that are
not valid UTF-8: the cache is empty, the HTTP call succeeds, the body
parses with a content field, base64 decoding succeeds, UTF-8 decoding
fails. -/
def readmeW : ReadmeWorld :=
  { cached := none, resp_success := true, resp_json := some (some "QUFB"),
    b64 := fun _ => some [255], utf8 := fun _ => none,
    owner := "o", repo := "r" }

/-- A two-document corpus whose embeddings are the two standard basis
vectors, in the retrieval order a then b. -/
def corpus9 : List CommitDocument :=
  [mkDoc "a" [EF.fin 0, EF.fin 1], mkDoc "b" [EF.fin 1, EF.fin 0]]

/-- No value compares strictly greater than itself under the f32 partial
comparison (NaN compares as none, every other value as equal). -/
theorem EF.pcmp_self_not_gt (a : EF) : EF.pcmp a a ≠ some .gt := by
  cases a with
  | nan => simp [EF.pcmp]
  | inf => simp [EF.pcmp]
  | ninf => simp [EF.pcmp]
  | fin q =>
    simp only [EF.pcmp, ne_eq, Option.some.injEq]
    rw [compare_gt_iff_gt]
    exact lt_irrefl q

/-- The f32 partial comparison is antisymmetric on its defined pairs. -/
theorem EF.pcmp_gt_asymm {a b : EF} (h : EF.pcmp a b = some .gt) :
    EF.pcmp b a = some .lt := by
  cases a with
  | nan => simp [EF.pcmp] at h
  | inf => cases b <;> simp_all [EF.pcmp]
  | ninf => cases b <;> simp_all [EF.pcmp]
  | fin p =>
    cases b with
    | nan => simp [EF.pcmp] at h
    | inf => simp [EF.pcmp] at h
    | ninf => simp [EF.pcmp]
    | fin q =>
      simp only [EF.pcmp, Option.some.injEq] at h ⊢
      exact compare_lt_iff_lt.mpr (compare_gt_iff_gt.mp h)

/-- On non-NaN values the partial comparison is defined, and not being
strictly greater means less-or-equal. -/
theorem EF.le_of_pcmp_not_gt {a b : EF} (ha : a ≠ EF.nan) (hb : b ≠ EF.nan)
    (h : EF.pcmp a b ≠ some .gt) : EF.le a b := by
  unfold EF.le
  cases a with
  | nan => exact absurd rfl ha
  | inf => cases b <;> simp_all [EF.pcmp]
  | ninf => cases b <;> simp_all [EF.pcmp]
  | fin p =>
    cases b with
    | nan => exact absurd rfl hb
    | inf => simp [EF.pcmp]
    | ninf => simp_all [EF.pcmp]
    | fin q =>
      simp only [EF.pcmp, Option.some.injEq, ne_eq] at h ⊢
      rcases lt_trichotomy p q with hlt | heq | hgt
      · exact Or.inl (compare_lt_iff_lt.mpr hlt)
      · exact Or.inr (compare_eq_iff_eq.mpr heq)
      · exact absurd (compare_gt_iff_gt.mpr hgt) h

/-- On finite values the model order is the rational order. -/
theorem EF.le_fin_iff {p q : ℚ} : EF.le (.fin p) (.fin q) ↔ p ≤ q := by
  unfold EF.le
  simp only [EF.pcmp, Option.some.injEq]
  constructor
  · rintro (h | h)
    · exact le_of_lt (compare_lt_iff_lt.mp h)
    · exact le_of_eq (compare_eq_iff_eq.mp h)
  · intro h
    rcases lt_or_eq_of_le h with hlt | heq
    · exact Or.inl (compare_lt_iff_lt.mpr hlt)
    · exact Or.inr (compare_eq_iff_eq.mpr heq)

/-- The model order is transitive (its two sides are never NaN). -/
theorem EF.le_trans {a b c : EF} (hab : EF.le a b) (hbc : EF.le b c) :
    EF.le a c := by
  cases a with
  | nan => simp_all [EF.le, EF.pcmp]
  | inf => cases b <;> cases c <;> simp_all [EF.le, EF.pcmp]
  | ninf => cases b <;> cases c <;> simp_all [EF.le, EF.pcmp]
  | fin p =>
    cases b with
    | nan => simp_all [EF.le, EF.pcmp]
    | inf => cases c <;> simp_all [EF.le, EF.pcmp]
    | ninf => cases c <;> simp_all [EF.le, EF.pcmp]
    | fin q =>
      cases c with
      | nan => simp_all [EF.le, EF.pcmp]
      | inf => simp [EF.le, EF.pcmp]
      | ninf => simp_all [EF.le, EF.pcmp]
      | fin r =>
        exact EF.le_fin_iff.mpr
          ((EF.le_fin_iff.mp hab).trans (EF.le_fin_iff.mp hbc))

/-- The f32 partial comparison is defined on every non-NaN pair. -/
theorem EF.pcmp_isSome {a b : EF} (ha : a ≠ EF.nan) (hb : b ≠ EF.nan) :
    (EF.pcmp a b).isSome := by
  cases a <;> cases b <;> simp_all [EF.pcmp]

/-- a may precede b in a descending-by-similarity result list. -/
def Ge (a b : SearchResult) : Prop := EF.le b.similarity a.similarity

/-- Inserting under the search comparator yields a permutation of placing
the element in front. -/
theorem insertP_perm (cmp : SearchResult → SearchResult → Option Ordering)
    (x : SearchResult) (l : List SearchResult) :
    ∀ l', insertP cmp x l = some l' → List.Perm l' (x :: l) := by
  induction l with
  | nil =>
    intro l' h
    simp only [insertP, Option.some.injEq] at h
    subst h
    exact List.Perm.refl _
  | cons y ys ih =>
    intro l' h
    rw [insertP] at h
    split at h
    · exact absurd h (by simp)
    · rename_i heq
      cases hz : insertP cmp x ys with
      | none => rw [hz] at h; exact absurd h (by simp)
      | some zs =>
        rw [hz] at h
        simp only [Option.some.injEq] at h
        subst h
        exact (List.Perm.cons y (ih zs hz)).trans (List.Perm.swap x y ys)
    · rename_i heq
      simp only [Option.some.injEq] at h
      subst h
      exact List.Perm.refl _

/-- Insertion under the search comparator cannot panic when every
similarity in sight is non-NaN. -/
theorem insertP_isSome (x : SearchResult) (l : List SearchResult)
    (hx : x.similarity ≠ EF.nan) (hl : ∀ y ∈ l, y.similarity ≠ EF.nan) :
    (insertP searchCmp x l).isSome := by
  induction l with
  | nil => simp [insertP]
  | cons y ys ih =>
    rw [insertP]
    have hcy : (searchCmp x y).isSome :=
      EF.pcmp_isSome (hl y (List.mem_cons_self y ys)) hx
    cases hc : searchCmp x y with
    | none => rw [hc] at hcy; simp at hcy
    | some o =>
      cases o with
      | lt => simp
      | eq => simp
      | gt =>
        have := ih (fun z hz => hl z (List.mem_cons_of_mem y hz))
        cases hz : insertP searchCmp x ys with
        | none => rw [hz] at this; simp at this
        | some zs => simp

/-- Inserting into a descending list under the search comparator keeps it
descending, provided the similarities involved are non-NaN. -/
theorem insertP_pairwise (x : SearchResult) (l : List SearchResult)
    (hx : x.similarity ≠ EF.nan) (hl : ∀ y ∈ l, y.similarity ≠ EF.nan) :
    ∀ l', insertP searchCmp x l = some l' →
      List.Pairwise Ge l → List.Pairwise Ge l' := by
  induction l with
  | nil =>
    intro l' h _
    simp only [insertP, Option.some.injEq] at h
    subst h
    exact List.pairwise_singleton Ge x
  | cons y ys ih =>
    intro l' h hp
    rw [List.pairwise_cons] at hp
    obtain ⟨hy, hys⟩ := hp
    rw [insertP] at h
    cases hc : searchCmp x y with
    | none => rw [hc] at h; simp at h
    | some o =>
      rw [hc] at h
      cases o with
      | gt =>
        simp only at h
        cases hz : insertP searchCmp x ys with
        | none => rw [hz] at h; simp at h
        | some zs =>
          rw [hz] at h
          simp only [Option.some.injEq] at h
          subst h
          rw [List.pairwise_cons]
          constructor
          · intro z hzmem
            have : z ∈ x :: ys := (insertP_perm searchCmp x ys zs hz).mem_iff.mp hzmem
            rcases List.mem_cons.mp this with rfl | hzys
            · have hlt : EF.pcmp z.similarity y.similarity = some .lt :=
                EF.pcmp_gt_asymm hc
              exact Or.inl hlt
            · exact hy z hzys
          · exact ih (fun z hz => hl z (List.mem_cons_of_mem y hz)) zs hz hys
      | lt =>
        simp only [Option.some.injEq] at h
        subst h
        have hxy : Ge x y := Or.inl hc
        rw [List.pairwise_cons]
        refine ⟨?_, List.pairwise_cons.mpr ⟨hy, hys⟩⟩
        intro z hz
        rcases List.mem_cons.mp hz with rfl | hzys
        · exact hxy
        · exact EF.le_trans (hy z hzys) hxy
      | eq =>
        simp only [Option.some.injEq] at h
        subst h
        have hxy : Ge x y := Or.inr hc
        rw [List.pairwise_cons]
        refine ⟨?_, List.pairwise_cons.mpr ⟨hy, hys⟩⟩
        intro z hz
        rcases List.mem_cons.mp hz with rfl | hzys
        · exact hxy
        · exact EF.le_trans (hy z hzys) hxy

/-- Insertion under the search comparator is stable: for every similarity
value, the entries carrying it keep their relative order, with the
inserted element behind the existing ones only when strictly smaller. -/
theorem insertP_filter (x : SearchResult) (l : List SearchResult) :
    ∀ l', insertP searchCmp x l = some l' → ∀ s : EF,
      l'.filter (fun r => r.similarity == s)
        = (x :: l).filter (fun r => r.similarity == s) := by
  induction l with
  | nil =>
    intro l' h s
    simp only [insertP, Option.some.injEq] at h
    subst h
    rfl
  | cons y ys ih =>
    intro l' h s
    rw [insertP] at h
    cases hc : searchCmp x y with
    | none => rw [hc] at h; simp at h
    | some o =>
      rw [hc] at h
      cases o with
      | gt =>
        simp only at h
        cases hz : insertP searchCmp x ys with
        | none => rw [hz] at h; simp at h
        | some zs =>
          rw [hz] at h
          simp only [Option.some.injEq] at h
          subst h
          have hne : ¬ (x.similarity = s ∧ y.similarity = s) := by
            rintro ⟨hxs, hys⟩
            have : EF.pcmp y.similarity x.similarity = some .gt := hc
            rw [hxs, hys] at this
            exact EF.pcmp_self_not_gt s this
          have ihz := ih zs hz s
          by_cases hpx : x.similarity = s
          · have hpy : ¬ y.similarity = s := fun hys => hne ⟨hpx, hys⟩
            simp [List.filter_cons, hpx, hpy, ihz]
          · simp [List.filter_cons, hpx, ihz]
      | lt =>
        simp only [Option.some.injEq] at h
        subst h
        rfl
      | eq =>
        simp only [Option.some.injEq] at h
        subst h
        rfl

/-- The modelled sort returns a permutation of its input. -/
theorem sortByP_perm (l : List SearchResult) :
    ∀ l', sortByP searchCmp l = some l' → List.Perm l' l := by
  induction l with
  | nil =>
    intro l' h
    simp only [sortByP, Option.some.injEq] at h
    subst h
    exact List.Perm.refl _
  | cons x xs ih =>
    intro l' h
    rw [sortByP] at h
    cases hs : sortByP searchCmp xs with
    | none => rw [hs] at h; simp at h
    | some sorted =>
      rw [hs] at h
      exact (insertP_perm searchCmp x sorted l' h).trans
        (List.Perm.cons x (ih sorted hs))

/-- The modelled sort cannot panic when every similarity is non-NaN. -/
theorem sortByP_isSome (l : List SearchResult)
    (hl : ∀ y ∈ l, y.similarity ≠ EF.nan) :
    (sortByP searchCmp l).isSome := by
  induction l with
  | nil => simp [sortByP]
  | cons x xs ih =>
    rw [sortByP]
    have hxs : ∀ y ∈ xs, y.similarity ≠ EF.nan :=
      fun y hy => hl y (List.mem_cons_of_mem x hy)
    have := ih hxs
    cases hs : sortByP searchCmp xs with
    | none => rw [hs] at this; simp at this
    | some sorted =>
      have hsorted : ∀ y ∈ sorted, y.similarity ≠ EF.nan := fun y hy =>
        hxs y ((sortByP_perm xs sorted hs).mem_iff.mp hy)
      exact insertP_isSome x sorted (hl x (List.mem_cons_self x xs)) hsorted

/-- The modelled sort produces a descending list when every similarity is
non-NaN. -/
theorem sortByP_pairwise (l : List SearchResult)
    (hl : ∀ y ∈ l, y.similarity ≠ EF.nan) :
    ∀ l', sortByP searchCmp l = some l' → List.Pairwise Ge l' := by
  induction l with
  | nil =>
    intro l' h
    simp only [sortByP, Option.some.injEq] at h
    subst h
    exact List.Pairwise.nil
  | cons x xs ih =>
    intro l' h
    rw [sortByP] at h
    cases hs : sortByP searchCmp xs with
    | none => rw [hs] at h; simp at h
    | some sorted =>
      rw [hs] at h
      have hxs : ∀ y ∈ xs, y.similarity ≠ EF.nan :=
        fun y hy => hl y (List.mem_cons_of_mem x hy)
      have hsorted : ∀ y ∈ sorted, y.similarity ≠ EF.nan := fun y hy =>
        hxs y ((sortByP_perm xs sorted hs).mem_iff.mp hy)
      exact insertP_pairwise x sorted (hl x (List.mem_cons_self x xs))
        hsorted l' h (ih hxs sorted hs)

/-- The modelled sort is stable: for every similarity value, the entries
carrying it appear in the output in their input order. -/
theorem sortByP_filter (l : List SearchResult) :
    ∀ l', sortByP searchCmp l = some l' → ∀ s : EF,
      l'.filter (fun r => r.similarity == s)
        = l.filter (fun r => r.similarity == s) := by
  induction l with
  | nil =>
    intro l' h s
    simp only [sortByP, Option.some.injEq] at h
    subst h
    rfl
  | cons x xs ih =>
    intro l' h s
    rw [sortByP] at h
    cases hs : sortByP searchCmp xs with
    | none => rw [hs] at h; simp at h
    | some sorted =>
      rw [hs] at h
      have h1 := insertP_filter x sorted l' h s
      have h2 := ih sorted hs s
      rw [h1]
      simp [List.filter_cons, h2]

/-- Zipping a vector with itself under multiplication is the map of
squares (the dot product of a vector with itself is its sum of squares). -/
theorem zipWith_mul_self (v : List ℝ) :
    List.zipWith (fun a b => a * b) v v = v.map (fun x => x * x) := by
  induction v with
  | nil => rfl
  | cons x xs ih => simp [ih]

/-- A sum of squares is nonnegative. -/
theorem sumSq_nonneg (v : List ℝ) : 0 ≤ (v.map (fun x => x * x)).sum := by
  apply List.sum_nonneg
  intro x hx
  simp only [List.mem_map] at hx
  obtain ⟨y, _, rfl⟩ := hx
  exact mul_self_nonneg y

/-- A vector with a nonzero entry has a positive sum of squares (the two
conditions are equivalent over the reals, so the positivity hypothesis of
the cosine theorem is exactly "v is a non-zero vector"). -/
theorem sumSq_pos (v : List ℝ) (h : ∃ x ∈ v, x ≠ 0) :
    0 < (v.map (fun x => x * x)).sum := by
  obtain ⟨x, hx, hne⟩ := h
  have hmem : x * x ∈ v.map (fun x => x * x) := List.mem_map_of_mem _ hx
  have hle : x * x ≤ (v.map (fun x => x * x)).sum :=
    List.single_le_sum (fun y hy => by
      simp only [List.mem_map] at hy
      obtain ⟨z, _, rfl⟩ := hy
      exact mul_self_nonneg z) _ hmem
  have hpos : 0 < x * x := mul_self_pos.mpr hne
  linarith

/-- C1: the claim says total_processed counts exactly the commits enriched
and inserted, incremented only at the Persist step, so a second run with no
new upstream commits returns total_processed = 0.  The code instead adds
commits.len() to the counter before the dedup, size and emptiness gates
(process.rs line 113): on the one-commit world w1, the first run inserts
the commit and reports total_processed = 1, and the second run — with the
commit already stored and nothing inserted — still reports
total_processed = 1, not 0, even though the store is unchanged.  This
contradicts the response field's own documentation ("Number of commits
actually processed", api/types.rs line 35). -/
theorem claim_C1 :
    process_user w1 [] =
      .ok ({ total_expected := 1, total_processed := 1,
             repositories := ["org/repo"] }, st1)
    ∧ process_user w1 st1 =
      .ok ({ total_expected := 1, total_processed := 1,
             repositories := ["org/repo"] }, st1) :=
  ⟨by rfl, by rfl⟩

/-- C3 counterexample: on a response that parses but contains no
embeddings, get_embedding panics (index out of bounds on data[0]) instead
of returning an error to its caller. -/
theorem claim_C3_counterexample :
    get_embedding (some ⟨[]⟩) = .panicked
    ∧ (MlResult.panicked : MlResult (List EF)) ≠ .error := by
  exact ⟨rfl, by decide⟩

/-- C3 (amended): get_embedding returns the first embedding vector of a
parsed response; a response that fails to parse returns an error; but a
parsed response with an empty embeddings list makes the code panic
(aborting the request) rather than return an error. -/
theorem claim_C3 (r : OpenAIEmbeddingResponse) :
    get_embedding none = .error
    ∧ (r.data = [] → get_embedding (some r) = .panicked)
    ∧ (∀ e rest, r.data = e :: rest → get_embedding (some r) = .ok e.embedding) := by
  obtain ⟨d⟩ := r
  refine ⟨rfl, ?_, ?_⟩
  · intro h
    simp only at h
    subst h
    rfl
  · intro e rest h
    simp only at h
    subst h
    rfl

/-- C3 witness: the amended behaviour at two concrete responses. -/
theorem claim_C3_witness :
    get_embedding (some ⟨[]⟩) = .panicked
    ∧ get_embedding (some ⟨[⟨[EF.fin 2]⟩]⟩) = .ok [EF.fin 2] :=
  ⟨(claim_C3 ⟨[]⟩).2.1 rfl, (claim_C3 ⟨[⟨[EF.fin 2]⟩]⟩).2.2 ⟨[EF.fin 2]⟩ [] rfl⟩

/-- C4 counterexample: with an unresolvable identity (user_id lookup
returns none) but an empty discovery result, process_user succeeds — the
identity is only consulted inside the per-repository loop, so the claim
that the whole run fails "including when discovery returned an empty
repository list" is false. -/
theorem claim_C4_counterexample :
    ({ w1 with repos := [], user_id := none } : World).user_id = none
    ∧ process_user { w1 with repos := [], user_id := none } [] =
        .ok ({ total_expected := 0, total_processed := 0, repositories := [] }, []) :=
  ⟨rfl, by rfl⟩

/-- C4 (amended): the user's identity is resolved inside the
per-repository loop (once per repository), not as a separate step before
it; when the lookup returns none the run fails if and only if discovery
returned at least one repository — with an empty repository list the run
succeeds without ever consulting the identity. -/
theorem claim_C4 (w : World) (store : List CommitDocument)
    (h : w.user_id = none) :
    (w.repos ≠ [] →
      process_user w store = .error ("No GitHub ID found for user " ++ w.user))
    ∧ (w.repos = [] →
      process_user w store =
        .ok ({ total_expected := 0, total_processed := 0, repositories := [] }, store)) := by
  constructor
  · intro hne
    cases hr : w.repos with
    | nil => exact absurd hr hne
    | cons repo rest =>
      unfold process_user
      rw [hr]
      unfold processRepos
      rw [h]
  · intro hr
    unfold process_user
    rw [hr]
    unfold processRepos
    rfl

/-- C4 witness: the amended behaviour at a concrete world with one
repository and no resolvable identity. -/
theorem claim_C4_witness :
    ({ w1 with user_id := none } : World).user_id = none
    ∧ ((({ w1 with user_id := none } : World).repos ≠ [] →
        process_user { w1 with user_id := none } [] =
          .error ("No GitHub ID found for user alice"))
      ∧ (({ w1 with user_id := none } : World).repos = [] →
        process_user { w1 with user_id := none } [] =
          .ok ({ total_expected := 0, total_processed := 0, repositories := [] }, []))) :=
  ⟨rfl, claim_C4 { w1 with user_id := none } [] rfl⟩

/-- C5: for a commit that passed the dedup gate, the size gate skips it
(store left unchanged, no enrichment reached, and in the source no error
raised) exactly when the patch byte length exceeds MAX_PATCH_SIZE_BYTES =
50000: strictly larger is skipped, while at most the maximum — boundary
included — proceeds, and (if also non-empty) ends with exactly one new
document inserted, carrying this commit's oid and this patch. -/
theorem claim_C5 (w : World) (repo : Repository) (store : List CommitDocument)
    (commit : CommitInfo) (h : commitExists store commit.oid = false) :
    ((w.patch repo.owner repo.name commit.oid).utf8ByteSize > MAX_PATCH_SIZE_BYTES →
      processCommitStep w repo store commit = store)
    ∧ ((w.patch repo.owner repo.name commit.oid).utf8ByteSize ≤ MAX_PATCH_SIZE_BYTES →
      (w.patch repo.owner repo.name commit.oid).isEmpty = false →
      ∃ doc, processCommitStep w repo store commit = store ++ [doc]
        ∧ doc.sha = commit.oid
        ∧ doc.patch = w.patch repo.owner repo.name commit.oid) := by
  constructor
  · intro hgt
    unfold processCommitStep
    rw [if_neg (by simp [h]), if_pos hgt]
  · intro hle hne
    unfold processCommitStep
    rw [if_neg (by simp [h]), if_neg (Nat.not_lt.mpr hle), if_neg (by simp [hne])]
    exact ⟨_, rfl, rfl, rfl⟩

/-- C5 witness: on the one-commit world w1 (patch "diff", four bytes), the
gates let the commit through and exactly one document is inserted. -/
theorem claim_C5_witness :
    commitExists [] commit1.oid = false
    ∧ (((w1.patch repo1.owner repo1.name commit1.oid).utf8ByteSize
          > MAX_PATCH_SIZE_BYTES →
        processCommitStep w1 repo1 [] commit1 = [])
      ∧ ((w1.patch repo1.owner repo1.name commit1.oid).utf8ByteSize
          ≤ MAX_PATCH_SIZE_BYTES →
        (w1.patch repo1.owner repo1.name commit1.oid).isEmpty = false →
        ∃ doc, processCommitStep w1 repo1 [] commit1 = [] ++ [doc]
          ∧ doc.sha = commit1.oid
          ∧ doc.patch = w1.patch repo1.owner repo1.name commit1.oid)) :=
  ⟨rfl, claim_C5 w1 repo1 [] commit1 rfl⟩

/-- C7: when embedding the query fails (the embedding call returns an
error), search returns the empty list as a success, never an error —
whatever the commit store scan returned. -/
theorem claim_C7 (dbResult : FetchResult (List CommitDocument)) :
    search dbResult .error = .ok [] := by
  cases dbResult <;> rfl

/-- C10: on a response body that was read successfully, get_commit_patch
returns the body text as the patch for every non-5xx status — including
4xx client errors such as 404 — and returns an error exactly for the
5xx server-error statuses. -/
theorem claim_C10 (resp : PatchHttpResponse) (body : String)
    (hb : resp.body = some body) :
    (¬ (500 ≤ resp.status ∧ resp.status ≤ 599) →
      get_commit_patch resp = .ok body)
    ∧ ((500 ≤ resp.status ∧ resp.status ≤ 599) →
      get_commit_patch resp = .error) := by
  constructor
  · intro h5
    unfold get_commit_patch
    rw [if_neg h5, hb]
  · intro h5
    unfold get_commit_patch
    rw [if_pos h5]

/-- C10 witness: a 404 body is returned as the patch, not as an error. -/
theorem claim_C10_witness :
    ({ status := 404, body := some "Not Found" } : PatchHttpResponse).body
        = some "Not Found"
    ∧ ((¬ (500 ≤ ({ status := 404, body := some "Not Found" } : PatchHttpResponse).status
          ∧ ({ status := 404, body := some "Not Found" } : PatchHttpResponse).status ≤ 599) →
        get_commit_patch { status := 404, body := some "Not Found" } = .ok "Not Found")
      ∧ ((500 ≤ ({ status := 404, body := some "Not Found" } : PatchHttpResponse).status
          ∧ ({ status := 404, body := some "Not Found" } : PatchHttpResponse).status ≤ 599) →
        get_commit_patch { status := 404, body := some "Not Found" } = .error)) :=
  ⟨rfl, claim_C10 { status := 404, body := some "Not Found" } "Not Found" rfl⟩

/-- C2 counterexample: with a corpus holding an embedding with an infinite
component next to an ordinary one, the two similarities are NaN and 1, the
comparator's expect fails, and the whole search aborts with a panic — the
similarity comparison does not complete for all float inputs. -/
theorem claim_C2_counterexample :
    search (.ok [mkDoc "a" [EF.fin 1], mkDoc "b" [EF.inf]]) (.ok [EF.fin 1])
      = .panicked := by
  with_unfolding_all rfl

/-- C2 (amended): the similarity comparison completes — search returns a
result list — whenever every similarity in the scored corpus is
comparable (non-NaN); a NaN similarity, reachable through non-finite
embedding components, makes the comparator's expect panic and aborts the
search instead. -/
theorem claim_C2 (commits : List CommitDocument) (qe : List EF)
    (h : ∀ c ∈ commits, cosine_similarity qe c.embedding ≠ EF.nan) :
    ∃ out, search (.ok commits) (.ok qe) = .ok out := by
  have hl : ∀ y ∈ commits.map (fun commit =>
      ({ similarity := cosine_similarity qe commit.embedding,
         commit := commit } : SearchResult)), y.similarity ≠ EF.nan := by
    intro y hy
    simp only [List.mem_map] at hy
    obtain ⟨c, hc, rfl⟩ := hy
    exact h c hc
  have hsome := sortByP_isSome _ hl
  cases hs : sortByP searchCmp (commits.map (fun commit =>
      ({ similarity := cosine_similarity qe commit.embedding,
         commit := commit } : SearchResult))) with
  | none => rw [hs] at hsome; simp at hsome
  | some sorted =>
    refine ⟨sorted, ?_⟩
    show (match sortByP searchCmp (commits.map (fun commit =>
        ({ similarity := cosine_similarity qe commit.embedding,
           commit := commit } : SearchResult))) with
      | none => MlResult.panicked
      | some sorted => MlResult.ok sorted) = MlResult.ok sorted
    rw [hs]

/-- C2 witness: a corpus with one finite-embedding document is sorted
without aborting. -/
theorem claim_C2_witness :
    (∀ c ∈ [mkDoc "a" [EF.fin 1]],
      cosine_similarity [EF.fin 1] c.embedding ≠ EF.nan)
    ∧ ∃ out, search (.ok [mkDoc "a" [EF.fin 1]]) (.ok [EF.fin 1]) = .ok out :=
  ⟨by with_unfolding_all decide,
   claim_C2 [mkDoc "a" [EF.fin 1]] [EF.fin 1] (by with_unfolding_all decide)⟩

/-- C9: when every similarity in the scored corpus is comparable
(non-NaN), search returns a list that is a permutation of the scored
commits (in retrieval order), pairwise non-increasing by similarity, and
stable: for every similarity value, the entries carrying it appear in
their original retrieval order.  Re-invocation determinism is definitional:
the model is a pure function of the corpus and the query embedding. -/
theorem claim_C9 (commits : List CommitDocument) (qe : List EF)
    (h : ∀ c ∈ commits, cosine_similarity qe c.embedding ≠ EF.nan) :
    ∃ out, search (.ok commits) (.ok qe) = .ok out
      ∧ List.Pairwise Ge out
      ∧ (∀ s : EF, out.filter (fun r => r.similarity == s)
          = (commits.map (fun commit =>
              ({ similarity := cosine_similarity qe commit.embedding,
                 commit := commit } : SearchResult))).filter
              (fun r => r.similarity == s))
      ∧ List.Perm out (commits.map (fun commit =>
          ({ similarity := cosine_similarity qe commit.embedding,
             commit := commit } : SearchResult))) := by
  have hl : ∀ y ∈ commits.map (fun commit =>
      ({ similarity := cosine_similarity qe commit.embedding,
         commit := commit } : SearchResult)), y.similarity ≠ EF.nan := by
    intro y hy
    simp only [List.mem_map] at hy
    obtain ⟨c, hc, rfl⟩ := hy
    exact h c hc
  have hsome := sortByP_isSome _ hl
  cases hs : sortByP searchCmp (commits.map (fun commit =>
      ({ similarity := cosine_similarity qe commit.embedding,
         commit := commit } : SearchResult))) with
  | none => rw [hs] at hsome; simp at hsome
  | some sorted =>
    refine ⟨sorted, ?_, ?_, ?_, ?_⟩
    · show (match sortByP searchCmp (commits.map (fun commit =>
          ({ similarity := cosine_similarity qe commit.embedding,
             commit := commit } : SearchResult))) with
        | none => MlResult.panicked
        | some sorted => MlResult.ok sorted) = MlResult.ok sorted
      rw [hs]
    · exact sortByP_pairwise _ hl sorted hs
    · exact sortByP_filter _ sorted hs
    · exact sortByP_perm _ sorted hs

/-- C9 witness: the two-basis-vector corpus with query embedding e1 — the
scenario of the specification — returns the e1 document first with
similarity 1, the orthogonal one second with similarity 0, a stable
descending order. -/
theorem claim_C9_witness :
    (∀ c ∈ corpus9, cosine_similarity [EF.fin 1, EF.fin 0] c.embedding ≠ EF.nan)
    ∧ ∃ out, search (.ok corpus9) (.ok [EF.fin 1, EF.fin 0]) = .ok out
      ∧ List.Pairwise Ge out
      ∧ (∀ s : EF, out.filter (fun r => r.similarity == s)
          = (corpus9.map (fun commit =>
              ({ similarity := cosine_similarity [EF.fin 1, EF.fin 0] commit.embedding,
                 commit := commit } : SearchResult))).filter
              (fun r => r.similarity == s))
      ∧ List.Perm out (corpus9.map (fun commit =>
          ({ similarity := cosine_similarity [EF.fin 1, EF.fin 0] commit.embedding,
             commit := commit } : SearchResult))) :=
  ⟨by with_unfolding_all decide,
   claim_C9 corpus9 [EF.fin 1, EF.fin 0] (by with_unfolding_all decide)⟩

/-- C6 counterexample: on a response whose content field base64-decodes to
bytes that are not valid UTF-8, get_readme propagates an error instead of
returning an absent optional — "returns none on any fetch or decode
failure" is false for the UTF-8 half of the decode. -/
theorem claim_C6_counterexample : get_readme readmeW 0 = .error := by
  decide

/-- C6 (amended): with no cached entry, get_readme returns Ok(None) for a
non-success HTTP status, for a missing content field, and for a base64
decode failure; but it propagates an error when the response body fails to
parse as JSON and when the base64-decoded bytes are not valid UTF-8 (and
on the success path it returns and caches the decoded content). -/
theorem claim_C6 (w : ReadmeWorld) (now : Nat) (hc : w.cached = none) :
    (w.resp_success = false → get_readme w now = .ok (none, none))
    ∧ (w.resp_success = true → w.resp_json = none → get_readme w now = .error)
    ∧ (w.resp_success = true → w.resp_json = some none →
        get_readme w now = .ok (none, none))
    ∧ (∀ content, w.resp_success = true → w.resp_json = some (some content) →
        w.b64 (content.replace "\n" "") = none →
        get_readme w now = .ok (none, none))
    ∧ (∀ content bytes, w.resp_success = true →
        w.resp_json = some (some content) →
        w.b64 (content.replace "\n" "") = some bytes →
        w.utf8 bytes = none →
        get_readme w now = .error)
    ∧ (∀ content bytes text, w.resp_success = true →
        w.resp_json = some (some content) →
        w.b64 (content.replace "\n" "") = some bytes →
        w.utf8 bytes = some text →
        get_readme w now = .ok (some text,
          some { owner := w.owner, repo := w.repo, content := text,
                 cached_at := now })) := by
  refine ⟨?_, ?_, ?_, ?_, ?_, ?_⟩
  · intro hs
    unfold get_readme
    rw [hc]
    simp [hs]
  · intro hs hj
    unfold get_readme
    rw [hc]
    simp [hs, hj]
  · intro hs hj
    unfold get_readme
    rw [hc]
    simp [hs, hj]
  · intro content hs hj hb
    unfold get_readme
    rw [hc]
    simp [hs, hj, hb]
  · intro content bytes hs hj hb hu
    unfold get_readme
    rw [hc]
    simp [hs, hj, hb, hu]
  · intro content bytes text hs hj hb hu
    unfold get_readme
    rw [hc]
    simp [hs, hj, hb, hu]

/-- C6 witness: the amended behaviour at the invalid-UTF-8 world — the
error branch is really reached there. -/
theorem claim_C6_witness :
    readmeW.cached = none
    ∧ readmeW.resp_success = true
    ∧ readmeW.resp_json = some (some "QUFB")
    ∧ readmeW.b64 ("QUFB".replace "\n" "") = some [255]
    ∧ readmeW.utf8 [255] = none
    ∧ get_readme readmeW 0 = .error :=
  ⟨rfl, rfl, rfl, rfl, rfl,
   (claim_C6 readmeW 0 rfl).2.2.2.2.1 "QUFB" [255] rfl rfl rfl rfl⟩

/-- C8: in the idealized real-arithmetic model of cosine_similarity (exact
arithmetic stands in for "within floating tolerance"): for every vector v
with positive sum of squares — exactly the non-zero vectors —
cosine(v, v) = 1; for any two vectors whose dot product vanishes
(orthogonal vectors) the similarity is 0; and for EVERY vector u —
the zero and empty vectors included — against a zero vector of any length
the zero-norm guard returns 0 instead of dividing by zero.  The positivity
hypothesis guards only the self-similarity conjunct; the other two hold
unconditionally. -/
theorem claim_C8 (v a b u : List ℝ) (n : ℕ)
    (hv : 0 < (v.map (fun x => x * x)).sum) :
    cosine_similarityR v v = 1
    ∧ (dotR a b = 0 → cosine_similarityR a b = 0)
    ∧ cosine_similarityR u (List.replicate n 0) = 0 := by
  refine ⟨?_, ?_, ?_⟩
  · have hnorm : normR v ≠ 0 := by
      unfold normR
      rw [ne_eq, Real.sqrt_eq_zero']
      push_neg
      exact hv
    unfold cosine_similarityR
    rw [if_neg (by tauto)]
    unfold dotR normR
    rw [zipWith_mul_self, Real.mul_self_sqrt (le_of_lt hv)]
    exact div_self (ne_of_gt hv)
  · intro hdot
    unfold cosine_similarityR
    split
    · rfl
    · rw [hdot, zero_div]
  · have hz : normR (List.replicate n (0 : ℝ)) = 0 := by
      unfold normR
      simp
    unfold cosine_similarityR
    rw [if_pos (Or.inr hz)]

/-- C8 witness: at v = (3, 4), the orthogonal pair (3, 4) and (4, -3), and
the degenerate zero-vector pair u = (0, 0) against the zero vector of
length two: self-similarity 1, orthogonal similarity 0, and the zero-norm
guard returning 0 on a vector that is itself zero. -/
theorem claim_C8_witness :
    (0 < (([3, 4] : List ℝ).map (fun x => x * x)).sum)
    ∧ dotR [3, 4] [4, -3] = 0
    ∧ cosine_similarityR [3, 4] [3, 4] = 1
    ∧ cosine_similarityR [3, 4] [4, -3] = 0
    ∧ cosine_similarityR [0, 0] (List.replicate 2 0) = 0 :=
  ⟨by norm_num, by norm_num [dotR],
   (claim_C8 [3, 4] [3, 4] [4, -3] [0, 0] 2 (by norm_num)).1,
   (claim_C8 [3, 4] [3, 4] [4, -3] [0, 0] 2 (by norm_num)).2.1 (by norm_num [dotR]),
   (claim_C8 [3, 4] [3, 4] [4, -3] [0, 0] 2 (by norm_num)).2.2⟩
